import Mathlib

/-!
Verification of the task data structures declared in `src/common/task.h`:
content-addressed identifiers, the packed two-phase task-specification
builder and its read accessors, task instances, and the scheduling-state
bitmask.

Only the header is present in the repository, so the bodies of the declared
functions are modelled from the specification document (each such
definition carries a doc comment starting `Modelled from the spec:`).
Machine integers (`int64_t` counters, sizes and indices) are modelled as
`Nat`/`Int`: none of the verified properties exercises overflow.  Bytes are
modelled as `Nat`: the code only moves bytes verbatim, never computes with
their values.
-/

/-- A byte sequence, the payload of identifiers and by-value arguments. -/
abbrev byte_seq := List Nat

/-- Frame one byte range for hashing/serialization: its length followed by
its bytes.  Length-delimiting makes the framing of a chunk sequence
injective, which models the spec's contract that the deterministic hash is
collision-free on its ordered sequence of input byte ranges. -/
def pack_chunk (c : byte_seq) : byte_seq :=
  c.length :: c

/-- Concatenate the framed chunks of an ordered sequence of byte ranges. -/
def pack_chunks (chunks : List byte_seq) : byte_seq :=
  chunks.flatMap pack_chunk

/-- Fuel-indexed parser undoing `pack_chunks`; the fuel bounds the number
of chunks and is instantiated with the byte count. -/
def parse_chunks_go : Nat → byte_seq → Option (List byte_seq)
  | _, [] => some []
  | 0, _ :: _ => none
  | fuel + 1, n :: rest =>
    if n ≤ rest.length then
      match parse_chunks_go fuel (rest.drop n) with
      | some cs => some (rest.take n :: cs)
      | none => none
    else none

/-- Parse a byte range back into the chunk sequence it frames. -/
def parse_chunks (l : byte_seq) : Option (List byte_seq) :=
  parse_chunks_go l.length l

/-- Modelled from the spec: the fixed-width content-addressable identifier
of §3 (`unique_id` from the absent `common.h`), used uniformly for
function, task, object, instance and node identifiers.  The fixed 20-byte
digest is modelled as an unconstrained byte sequence; equality is
byte-wise. -/
structure unique_id where
  bytes : byte_seq
deriving DecidableEq

abbrev function_id := unique_id
abbrev task_id := unique_id
abbrev task_iid := unique_id
abbrev node_id := unique_id
abbrev object_id := unique_id

/-- Modelled from the spec: `task_ids_equal` (body absent from src/);
byte-wise comparison of two task IDs. -/
def task_ids_equal (first_id second_id : task_id) : Bool :=
  decide (first_id.bytes = second_id.bytes)

/-- Modelled from the spec: `function_ids_equal` (body absent from src/);
byte-wise comparison of two function IDs. -/
def function_ids_equal (first_id second_id : function_id) : Bool :=
  decide (first_id.bytes = second_id.bytes)

/-- Modelled from the spec: the deterministic hash constructor of §4.1
(implementation absent from src/) that combines an arbitrary ordered
sequence of byte ranges into one identifier.  It is a pure function of its
input, and — modelling the spec's collision-freeness assumption — it is
injective on the chunk sequence. -/
def id_hash (chunks : List byte_seq) : unique_id :=
  ⟨pack_chunks chunks⟩

/-- Injective byte encoding of a signed 64-bit counter (sign, magnitude). -/
def int_bytes (i : Int) : byte_seq :=
  if 0 ≤ i then [0, i.toNat] else [1, (-i).toNat]

/-- Left inverse of `int_bytes`, used by the buffer parser. -/
def int_of_bytes : byte_seq → Option Int
  | [0, n] => some (Int.ofNat n)
  | [1, n] => some (-(Int.ofNat n))
  | _ => none

/-- Tag value of `ARG_BY_REF` from `enum arg_type` in `task.h`. -/
def ARG_BY_REF : Nat := 0

/-- Tag value of `ARG_BY_VAL` from `enum arg_type` in `task.h`. -/
def ARG_BY_VAL : Nat := 1

/-- A task argument as the caller sees it: either a reference to an object
identifier or an inline byte value (§3 Argument). -/
inductive task_arg where
  | by_ref (id : object_id)
  | by_val (value : byte_seq)
deriving DecidableEq

/-- Modelled from the spec: one fixed-size argument-descriptor slot of the
packed encoding (§6): a tag plus either an identifier or an
(offset, length) pair into the trailing value region. -/
inductive arg_desc where
  | by_ref (id : object_id)
  | by_val (offset : Nat) (length : Nat)
deriving DecidableEq

/-- Slice `len` bytes starting `off` bytes into a buffer (self-relative
addressing into the trailing value region). -/
def list_slice (l : byte_seq) (off len : Nat) : byte_seq :=
  (l.drop off).take len

/-- Modelled from the spec: the contiguous `task_spec_impl` record (§3, §6;
implementation absent from src/): header fields, the argument-descriptor
table filled so far, the trailing by-value region filled so far, and the
return-identifier table written at finish time.  `arg_cursor` and
`value_cursor` are the builder's fill cursors. -/
structure task_spec where
  task_id : unique_id
  parent_task_id : unique_id
  parent_counter : Int
  func_id : unique_id
  num_args : Nat
  arg_cursor : Nat
  num_returns : Nat
  args_value_size : Nat
  value_cursor : Nat
  args : List arg_desc
  value_data : byte_seq
  returns : List unique_id
deriving DecidableEq

/-- The all-zero identifier a freshly opened specification carries before
`finish` computes the real task identifier. -/
def NIL_ID : unique_id := ⟨[]⟩

/-- Modelled from the spec: `start_construct_task_spec` (§4.2 phase 1;
body absent from src/): allocate the record with empty argument, value and
return regions and the task identifier left unset. -/
def start_construct_task_spec (parent_task_id : task_id) (parent_counter : Int)
    (function_id : function_id) (num_args : Nat) (num_returns : Nat)
    (args_value_size : Nat) : task_spec :=
  { task_id := NIL_ID
    parent_task_id := parent_task_id
    parent_counter := parent_counter
    func_id := function_id
    num_args := num_args
    arg_cursor := 0
    num_returns := num_returns
    args_value_size := args_value_size
    value_cursor := 0
    args := []
    value_data := []
    returns := [] }

/-- Modelled from the spec: `task_args_add_ref` (§4.2 phase 2; body absent
from src/): store tag `ByReference` and the identifier in the next
unfilled slot; appending beyond the declared count is a contract violation
(abort, modelled as `none`).  Per the header contract the returned count
is the number of arguments that had been set before this one. -/
def task_args_add_ref (spec : task_spec) (obj_id : object_id) :
    Option (task_spec × Nat) :=
  if spec.arg_cursor < spec.num_args then
    some ({ spec with
              args := spec.args ++ [arg_desc.by_ref obj_id]
              arg_cursor := spec.arg_cursor + 1 },
          spec.arg_cursor)
  else none

/-- Modelled from the spec: `task_args_add_val` (§4.2 phase 2; body absent
from src/): store tag `ByValue` with an (offset, length) descriptor and
copy the bytes into the trailing value region; appending beyond the
declared count or exceeding the declared value-byte budget is a contract
violation (abort, modelled as `none`).  Per the header contract the
returned count is the number of arguments that had been set before this
one. -/
def task_args_add_val (spec : task_spec) (data : byte_seq) :
    Option (task_spec × Nat) :=
  if spec.arg_cursor < spec.num_args ∧
      spec.value_cursor + data.length ≤ spec.args_value_size then
    some ({ spec with
              args := spec.args ++ [arg_desc.by_val spec.value_cursor data.length]
              value_data := spec.value_data ++ data
              value_cursor := spec.value_cursor + data.length
              arg_cursor := spec.arg_cursor + 1 },
          spec.arg_cursor)
  else none

/-- Resolve one descriptor slot against the value region, recovering the
argument as appended. -/
def arg_value (value_data : byte_seq) : arg_desc → task_arg
  | arg_desc.by_ref id => task_arg.by_ref id
  | arg_desc.by_val off len => task_arg.by_val (list_slice value_data off len)

/-- The ordered argument sequence a specification encodes. -/
def spec_args (s : task_spec) : List task_arg :=
  s.args.map (arg_value s.value_data)

/-- The hash chunks one argument contributes to the task identifier:
its tag byte, then its identifier bytes or its value bytes (§4.2
phase 3). -/
def arg_hash_chunks : task_arg → List byte_seq
  | task_arg.by_ref id => [[ARG_BY_REF], id.bytes]
  | task_arg.by_val v => [[ARG_BY_VAL], v]

/-- Modelled from the spec: the task identifier as the deterministic hash
over parent task identifier, parent-submission counter, function
identifier, and the full ordered argument sequence (§4.2 phase 3). -/
def compute_task_id (parent_task_id : task_id) (parent_counter : Int)
    (function_id : function_id) (args : List task_arg) : task_id :=
  id_hash ([parent_task_id.bytes, int_bytes parent_counter, function_id.bytes]
    ++ args.flatMap arg_hash_chunks)

/-- Modelled from the spec: the return-slot object identifier as the
deterministic hash of the task identifier and the return index (§4.2
phase 3). -/
def compute_return_id (tid : task_id) (return_index : Nat) : object_id :=
  id_hash [tid.bytes, [return_index]]

/-- Modelled from the spec: `finish_construct_task_spec` (§4.2 phase 3;
body absent from src/): calling it before all declared arguments are
filled is a contract violation (abort, modelled as `none`); otherwise it
computes the task identifier and writes the derived return identifiers. -/
def finish_construct_task_spec (spec : task_spec) : Option task_spec :=
  if spec.arg_cursor = spec.num_args then
    let tid := compute_task_id spec.parent_task_id spec.parent_counter
      spec.func_id (spec_args spec)
    some { spec with
             task_id := tid
             returns := (List.range spec.num_returns).map (compute_return_id tid) }
  else none

/-- Modelled from the spec: `task_function` accessor (body absent from
src/). -/
def task_function (spec : task_spec) : function_id :=
  spec.func_id

/-- Modelled from the spec: `task_task_id` accessor (body absent from
src/). -/
def task_task_id (spec : task_spec) : task_id :=
  spec.task_id

/-- Modelled from the spec: `task_num_args` accessor (body absent from
src/). -/
def task_num_args (spec : task_spec) : Nat :=
  spec.num_args

/-- Modelled from the spec: `task_num_returns` accessor (body absent from
src/). -/
def task_num_returns (spec : task_spec) : Nat :=
  spec.num_returns

/-- Modelled from the spec: `task_arg_type` accessor (body absent from
src/); reading an unfilled slot is a contract violation (`none`). -/
def task_arg_type (spec : task_spec) (arg_index : Nat) : Option Nat :=
  (spec.args[arg_index]?).map fun d =>
    match d with
    | arg_desc.by_ref _ => ARG_BY_REF
    | arg_desc.by_val _ _ => ARG_BY_VAL

/-- Modelled from the spec: `task_arg_id` accessor (body absent from
src/); valid only for a by-reference slot (wrong-tag read is a contract
violation, `none`). -/
def task_arg_id (spec : task_spec) (arg_index : Nat) : Option object_id :=
  match spec.args[arg_index]? with
  | some (arg_desc.by_ref id) => some id
  | _ => none

/-- Modelled from the spec: `task_arg_val` accessor (body absent from
src/); valid only for a by-value slot, returning the payload slice of the
trailing value region. -/
def task_arg_val (spec : task_spec) (arg_index : Nat) : Option byte_seq :=
  match spec.args[arg_index]? with
  | some (arg_desc.by_val off len) => some (list_slice spec.value_data off len)
  | _ => none

/-- Modelled from the spec: `task_arg_length` accessor (body absent from
src/); valid only for a by-value slot. -/
def task_arg_length (spec : task_spec) (arg_index : Nat) : Option Nat :=
  match spec.args[arg_index]? with
  | some (arg_desc.by_val _ len) => some len
  | _ => none

/-- Modelled from the spec: `task_return` accessor (body absent from
src/): the return-identifier table entry at the given index. -/
def task_return (spec : task_spec) (return_index : Nat) : Option object_id :=
  spec.returns[return_index]?

/-- The hash chunks one descriptor slot contributes to the wire encoding
(§6): tag, then identifier or (offset, length). -/
def desc_chunks : arg_desc → List byte_seq
  | arg_desc.by_ref id => [[ARG_BY_REF], id.bytes]
  | arg_desc.by_val off len => [[ARG_BY_VAL], [off], [len]]

/-- The chunk sequence of the whole record, in the layout of §6: header
fields, descriptor table, trailing value region, trailing return table. -/
def spec_chunks (s : task_spec) : List byte_seq :=
  [s.task_id.bytes, s.parent_task_id.bytes, int_bytes s.parent_counter,
   s.func_id.bytes, [s.num_args], [s.arg_cursor], [s.num_returns],
   [s.args_value_size], [s.value_cursor]]
  ++ s.args.flatMap desc_chunks
  ++ [s.value_data]
  ++ s.returns.map unique_id.bytes

/-- Modelled from the spec: the contiguous, relocatable encoded byte range
of a specification (§6); it may be copied verbatim and parsed back without
a separate deserialize pass. -/
def encode_task_spec (s : task_spec) : byte_seq :=
  pack_chunks (spec_chunks s)

/-- Modelled from the spec: `task_size` accessor (body absent from src/):
the total encoded byte size. -/
def task_size (spec : task_spec) : Nat :=
  (encode_task_spec spec).length

/-- Modelled from the spec: `print_task` (body absent from src/): a
human-readable rendering for diagnostics; it only reads the record. -/
def print_task (spec : task_spec) : String :=
  toString (encode_task_spec spec)

/-- Parse `n` descriptor slots off the front of a chunk sequence. -/
def parse_descs : Nat → List byte_seq → Option (List arg_desc × List byte_seq)
  | 0, cs => some ([], cs)
  | n + 1, [0] :: idb :: cs =>
    match parse_descs n cs with
    | some (ds, rest) => some (arg_desc.by_ref ⟨idb⟩ :: ds, rest)
    | none => none
  | n + 1, [1] :: [off] :: [len] :: cs =>
    match parse_descs n cs with
    | some (ds, rest) => some (arg_desc.by_val off len :: ds, rest)
    | none => none
  | _ + 1, _ => none

/-- Rebuild a record from its chunk sequence (inverse of `spec_chunks` on
well-formed records). -/
def decode_chunks : List byte_seq → Option task_spec
  | tid :: parent :: cb :: fid :: [na] :: [ac] :: [nr] :: [avs] :: [vc] :: rest =>
    match int_of_bytes cb with
    | some counter =>
      match parse_descs ac rest with
      | some (ds, rest1) =>
        match rest1 with
        | vd :: retchunks =>
          some { task_id := ⟨tid⟩
                 parent_task_id := ⟨parent⟩
                 parent_counter := counter
                 func_id := ⟨fid⟩
                 num_args := na
                 arg_cursor := ac
                 num_returns := nr
                 args_value_size := avs
                 value_cursor := vc
                 args := ds
                 value_data := vd
                 returns := retchunks.map fun b => ⟨b⟩ }
        | [] => none
      | none => none
    | none => none
  | _ => none

/-- Parse a verbatim copy of the encoded byte range back into the record,
with no separate deserialize pass (§6). -/
def decode_task_spec (l : byte_seq) : Option task_spec :=
  match parse_chunks l with
  | some cs => decode_chunks cs
  | none => none

/-- One read-accessor call of the accessor API, as an operation on the
specification state. -/
inductive accessor_op where
  | size
  | function
  | get_task_id
  | get_num_args
  | get_num_returns
  | arg_type (arg_index : Nat)
  | arg_id (arg_index : Nat)
  | arg_val (arg_index : Nat)
  | arg_length (arg_index : Nat)
  | ret (return_index : Nat)
  | print
deriving DecidableEq

/-- What one accessor call observes. -/
inductive accessor_obs where
  | nat_obs (n : Nat)
  | id_obs (u : unique_id)
  | opt_nat_obs (o : Option Nat)
  | opt_id_obs (o : Option unique_id)
  | opt_bytes_obs (o : Option byte_seq)
  | str_obs (s : String)
deriving DecidableEq

/-- Modelled from the spec: run one read accessor against the record,
returning the record state it leaves behind together with the observation;
per §4.2 and §5 every accessor is read-only, so the state passes through
unchanged. -/
def run_accessor (s : task_spec) : accessor_op → task_spec × accessor_obs
  | accessor_op.size => (s, accessor_obs.nat_obs (task_size s))
  | accessor_op.function => (s, accessor_obs.id_obs (task_function s))
  | accessor_op.get_task_id => (s, accessor_obs.id_obs (task_task_id s))
  | accessor_op.get_num_args => (s, accessor_obs.nat_obs (task_num_args s))
  | accessor_op.get_num_returns => (s, accessor_obs.nat_obs (task_num_returns s))
  | accessor_op.arg_type i => (s, accessor_obs.opt_nat_obs (task_arg_type s i))
  | accessor_op.arg_id i => (s, accessor_obs.opt_id_obs (task_arg_id s i))
  | accessor_op.arg_val i => (s, accessor_obs.opt_bytes_obs (task_arg_val s i))
  | accessor_op.arg_length i => (s, accessor_obs.opt_nat_obs (task_arg_length s i))
  | accessor_op.ret i => (s, accessor_obs.opt_id_obs (task_return s i))
  | accessor_op.print => (s, accessor_obs.str_obs (print_task s))

/-- The specification state left after a sequence of accessor calls. -/
def run_accessors (s : task_spec) (ops : List accessor_op) : task_spec :=
  ops.foldl (fun st op => (run_accessor st op).1) s

/-- Modelled from the spec: the `task_instance_impl` record (§3, §4.4;
implementation absent from src/): instance identifier, scheduling state,
assigned node, and the embedded specification owned by value. -/
structure task_instance where
  iid : unique_id
  state : Int
  node : unique_id
  spec : task_spec
deriving DecidableEq

/-- Modelled from the spec: `make_task_instance` (body absent from src/):
the instance takes ownership of a copy of the specification it wraps. -/
def make_task_instance (iid : task_iid) (task : task_spec) (state : Int)
    (node : node_id) : task_instance :=
  { iid := iid, state := state, node := node, spec := task }

/-- Modelled from the spec: `task_instance_id` accessor (body absent from
src/). -/
def task_instance_id (instance_rec : task_instance) : task_iid :=
  instance_rec.iid

/-- Modelled from the spec: read of the `task_instance_state` field (body
absent from src/). -/
def task_instance_state (instance_rec : task_instance) : Int :=
  instance_rec.state

/-- Modelled from the spec: read of the `task_instance_node` field (body
absent from src/). -/
def task_instance_node (instance_rec : task_instance) : node_id :=
  instance_rec.node

/-- Modelled from the spec: `task_instance_task_spec` accessor (body
absent from src/). -/
def task_instance_task_spec (instance_rec : task_instance) : task_spec :=
  instance_rec.spec

/-- Modelled from the spec: a write through the pointer returned by
`task_instance_state` (the C API exposes the field for read/write;
explicit state passing models the in-place mutation). -/
def set_task_instance_state (instance_rec : task_instance) (state : Int) :
    task_instance :=
  { instance_rec with state := state }

/-- Modelled from the spec: a write through the pointer returned by
`task_instance_node`. -/
def set_task_instance_node (instance_rec : task_instance) (node : node_id) :
    task_instance :=
  { instance_rec with node := node }

/-- `TASK_STATUS_WAITING` from `enum scheduling_state` in `task.h`. -/
def TASK_STATUS_WAITING : Nat := 1

/-- `TASK_STATUS_SCHEDULED` from `enum scheduling_state` in `task.h`. -/
def TASK_STATUS_SCHEDULED : Nat := 2

/-- `TASK_STATUS_RUNNING` from `enum scheduling_state` in `task.h`. -/
def TASK_STATUS_RUNNING : Nat := 4

/-- `TASK_STATUS_DONE` from `enum scheduling_state` in `task.h`. -/
def TASK_STATUS_DONE : Nat := 8

/-- The four scheduling states in declaration order. -/
def scheduling_states : List Nat :=
  [TASK_STATUS_WAITING, TASK_STATUS_SCHEDULED, TASK_STATUS_RUNNING,
   TASK_STATUS_DONE]

/-- A disjunction mask built by bitwise-or of a subset of the four
scheduling-state constants (§4.4: a listener registers interest in a
disjunction of states). -/
def status_mask (w s r d : Bool) : Nat :=
  (if w then TASK_STATUS_WAITING else 0) |||
  (if s then TASK_STATUS_SCHEDULED else 0) |||
  (if r then TASK_STATUS_RUNNING else 0) |||
  (if d then TASK_STATUS_DONE else 0)

/-- The `task_update` record from `task.h`: a (state, node) delta. -/
structure task_update where
  state : Int
  node : unique_id
deriving DecidableEq

/-- A descriptor slot is in bounds for a value region of `n` bytes. -/
def desc_ok (n : Nat) : arg_desc → Prop
  | arg_desc.by_ref _ => True
  | arg_desc.by_val off len => off + len ≤ n

instance (n : Nat) (d : arg_desc) : Decidable (desc_ok n d) := by
  cases d <;> unfold desc_ok <;> infer_instance

/-- The builder invariant of a record under (or after) construction: the
descriptor table matches the argument fill cursor, the value region
matches the value fill cursor and stays within the declared budget, and
every descriptor addresses bytes inside the value region. -/
def spec_wf (s : task_spec) : Prop :=
  s.args.length = s.arg_cursor ∧
  s.value_data.length = s.value_cursor ∧
  s.value_cursor ≤ s.args_value_size ∧
  ∀ d ∈ s.args, desc_ok s.value_data.length d

instance (s : task_spec) : Decidable (spec_wf s) := by
  unfold spec_wf; infer_instance

/-- Append one caller-level argument through the corresponding builder
operation. -/
def add_arg (s : task_spec) : task_arg → Option (task_spec × Nat)
  | task_arg.by_ref id => task_args_add_ref s id
  | task_arg.by_val v => task_args_add_val s v

/-- Append a sequence of arguments in positional order, aborting as the
builder does on any contract violation. -/
def build_args : task_spec → List task_arg → Option task_spec
  | s, [] => some s
  | s, a :: rest =>
    match add_arg s a with
    | some (s1, _) => build_args s1 rest
    | none => none

/-- Total number of by-value payload bytes of an argument sequence: the
`args_value_size` a caller declares when opening the builder. -/
def total_val_size : List task_arg → Nat
  | [] => 0
  | task_arg.by_ref _ :: rest => total_val_size rest
  | task_arg.by_val v :: rest => v.length + total_val_size rest

/-- One complete two-phase construction: open the builder with the exact
declared counts and value budget, append every argument in order, and
finish. -/
def build_task (parent_task_id : task_id) (parent_counter : Int)
    (function_id : function_id) (args : List task_arg) (num_returns : Nat) :
    Option task_spec :=
  match build_args
      (start_construct_task_spec parent_task_id parent_counter function_id
        args.length num_returns (total_val_size args)) args with
  | some s => finish_construct_task_spec s
  | none => none

/-- A concrete parent identifier used by the closed witnesses. -/
def demo_parent : task_id := ⟨[10, 11]⟩

/-- A concrete function identifier used by the closed witnesses. -/
def demo_fid : function_id := ⟨[20]⟩

/-- A concrete object identifier used by the closed witnesses. -/
def demo_obj : object_id := ⟨[30, 31]⟩

/-- The two-argument sequence of the §8 scenario: by-reference `R1`, then
by-value bytes `[1, 2]`. -/
def demo_args : List task_arg :=
  [task_arg.by_ref demo_obj, task_arg.by_val [1, 2]]

/-- The same two arguments in swapped order (the spec's adversarially
similar input). -/
def demo_args_swapped : List task_arg :=
  [task_arg.by_val [1, 2], task_arg.by_ref demo_obj]

/-- Fallback record for extracting concrete built specifications. -/
def demo_fallback : task_spec :=
  start_construct_task_spec NIL_ID 0 NIL_ID 0 0 0

/-- The finished specification built from the §8 scenario inputs with
three declared returns. -/
def demo_spec : task_spec :=
  (build_task demo_parent 0 demo_fid demo_args 3).getD demo_fallback

/-- The finished specification built from the swapped argument order. -/
def demo_spec_swapped : task_spec :=
  (build_task demo_parent 0 demo_fid demo_args_swapped 3).getD demo_fallback

/-- A record whose cursor is past its declared argument count and whose
value budget is exhausted, exercising every fail-fast branch. -/
def demo_bad_spec : task_spec :=
  { task_id := NIL_ID
    parent_task_id := demo_parent
    parent_counter := 0
    func_id := demo_fid
    num_args := 0
    arg_cursor := 1
    num_returns := 1
    args_value_size := 0
    value_cursor := 0
    args := []
    value_data := []
    returns := [] }

/-- A freshly opened builder for two arguments, one return and a two-byte
value budget, used by the closed witnesses. -/
def demo_open : task_spec :=
  start_construct_task_spec demo_parent 0 demo_fid 2 1 2

/-- The builder state after appending `demo_obj` by reference. -/
def demo_after_ref : task_spec :=
  ((task_args_add_ref demo_open demo_obj).getD (demo_fallback, 0)).1

/-- The count returned by that append. -/
def demo_after_ref_count : Nat :=
  ((task_args_add_ref demo_open demo_obj).getD (demo_fallback, 0)).2

/-- The builder state after appending the bytes `[1, 2]` by value. -/
def demo_after_val : task_spec :=
  ((task_args_add_val demo_open [1, 2]).getD (demo_fallback, 0)).1

/-- The count returned by that append. -/
def demo_after_val_count : Nat :=
  ((task_args_add_val demo_open [1, 2]).getD (demo_fallback, 0)).2

/-- The builder state after appending a zero-length by-value argument. -/
def demo_after_zero : task_spec :=
  ((task_args_add_val demo_open []).getD (demo_fallback, 0)).1

/-- The populated but unfinished builder state of the §8 scenario. -/
def demo_prespec : task_spec :=
  (build_args (start_construct_task_spec demo_parent 0 demo_fid
    demo_args.length 3 (total_val_size demo_args)) demo_args).getD demo_fallback

/-- The header fields declared at open time, which populate and finish
never change. -/
def same_header (s1 s : task_spec) : Prop :=
  s1.parent_task_id = s.parent_task_id ∧
  s1.parent_counter = s.parent_counter ∧
  s1.func_id = s.func_id ∧
  s1.num_args = s.num_args ∧
  s1.num_returns = s.num_returns ∧
  s1.args_value_size = s.args_value_size

/-- Framing a cons prepends the framed head. -/
theorem pack_chunks_cons (c : byte_seq) (t : List byte_seq) :
    pack_chunks (c :: t) = c.length :: (c ++ pack_chunks t) := by
  simp [pack_chunks, pack_chunk]

/-- The fuel-indexed parser undoes the framing whenever given enough
fuel. -/
theorem parse_chunks_go_pack (cs : List byte_seq) :
    ∀ fuel, (pack_chunks cs).length ≤ fuel →
      parse_chunks_go fuel (pack_chunks cs) = some cs := by
  induction cs with
  | nil => intro fuel _; simp [pack_chunks, parse_chunks_go]
  | cons c t ih =>
    intro fuel hfuel
    rw [pack_chunks_cons] at hfuel ⊢
    match fuel with
    | 0 => simp at hfuel
    | f + 1 =>
      have hle : c.length ≤ (c ++ pack_chunks t).length := by
        simp
      have hdrop : (c ++ pack_chunks t).drop c.length = pack_chunks t :=
        List.drop_left c (pack_chunks t)
      have htake : (c ++ pack_chunks t).take c.length = c :=
        List.take_left c (pack_chunks t)
      have hrec : parse_chunks_go f (pack_chunks t) = some t := by
        apply ih
        simp at hfuel
        omega
      simp [parse_chunks_go, hle, hdrop, htake, hrec]

/-- Round trip: parsing a framed chunk sequence recovers it exactly. -/
theorem parse_chunks_pack (cs : List byte_seq) :
    parse_chunks (pack_chunks cs) = some cs :=
  parse_chunks_go_pack cs _ le_rfl

/-- The framing of a chunk sequence is injective: the modelled hash never
collides on distinct ordered input sequences. -/
theorem pack_chunks_injective {c1 c2 : List byte_seq}
    (h : pack_chunks c1 = pack_chunks c2) : c1 = c2 := by
  have h1 := parse_chunks_pack c1
  have h2 := parse_chunks_pack c2
  rw [h] at h1
  rw [h1] at h2
  exact Option.some.inj h2

/-- Two identifiers with the same bytes are the same identifier. -/
theorem unique_id_eq_of_bytes {u v : unique_id} (h : u.bytes = v.bytes) :
    u = v := by
  cases u; cases v; simpa using h

/-- The modelled hash constructor is injective on chunk sequences. -/
theorem id_hash_injective {c1 c2 : List byte_seq}
    (h : id_hash c1 = id_hash c2) : c1 = c2 := by
  apply pack_chunks_injective
  simpa [id_hash] using congrArg unique_id.bytes h

/-- The counter encoding parses back to the counter. -/
theorem int_of_bytes_int_bytes (i : Int) :
    int_of_bytes (int_bytes i) = some i := by
  by_cases h : 0 ≤ i
  · simp [int_bytes, h, int_of_bytes]
  · simp [int_bytes, h, int_of_bytes]
    omega

/-- The counter encoding is injective. -/
theorem int_bytes_injective {i j : Int} (h : int_bytes i = int_bytes j) :
    i = j := by
  have h1 := int_of_bytes_int_bytes i
  have h2 := int_of_bytes_int_bytes j
  rw [h] at h1
  rw [h1] at h2
  exact Option.some.inj h2

/-- Slicing at the end of a freshly extended region recovers exactly the
appended bytes. -/
theorem list_slice_append_exact (v d : byte_seq) :
    list_slice (v ++ d) v.length d.length = d := by
  unfold list_slice
  rw [List.drop_left, List.take_length]

/-- A slice lying inside the old region is unchanged by appending bytes
after it. -/
theorem list_slice_append_of_le (v d : byte_seq) (off len : Nat)
    (h : off + len ≤ v.length) :
    list_slice (v ++ d) off len = list_slice v off len := by
  unfold list_slice
  rw [List.drop_append_of_le_length (by omega)]
  rw [List.take_append_of_le_length (by simp; omega)]

/-- An in-bounds slice has exactly the requested length. -/
theorem list_slice_length (l : byte_seq) (off len : Nat)
    (h : off + len ≤ l.length) :
    (list_slice l off len).length = len := by
  unfold list_slice
  simp
  omega

/-- Descriptors stay in bounds when the value region grows. -/
theorem desc_ok_mono {n m : Nat} (h : n ≤ m) (d : arg_desc)
    (hd : desc_ok n d) : desc_ok m d := by
  cases d with
  | by_ref id => trivial
  | by_val off len => simp [desc_ok] at hd ⊢; omega

/-- Resolving a descriptor is unchanged by bytes appended after the region
it addresses. -/
theorem arg_value_append (vd v : byte_seq) (d : arg_desc)
    (h : desc_ok vd.length d) :
    arg_value (vd ++ v) d = arg_value vd d := by
  cases d with
  | by_ref id => rfl
  | by_val off len =>
    simp [desc_ok] at h
    simp [arg_value, list_slice_append_of_le vd v off len h]

/-- Successful `task_args_add_ref`, explicitly. -/
theorem task_args_add_ref_some (s : task_spec) (id : object_id)
    (h : s.arg_cursor < s.num_args) :
    task_args_add_ref s id =
      some ({ s with args := s.args ++ [arg_desc.by_ref id]
                     arg_cursor := s.arg_cursor + 1 }, s.arg_cursor) := by
  simp [task_args_add_ref, h]

/-- Successful `task_args_add_val`, explicitly. -/
theorem task_args_add_val_some (s : task_spec) (v : byte_seq)
    (h1 : s.arg_cursor < s.num_args)
    (h2 : s.value_cursor + v.length ≤ s.args_value_size) :
    task_args_add_val s v =
      some ({ s with args := s.args ++ [arg_desc.by_val s.value_cursor v.length]
                     value_data := s.value_data ++ v
                     value_cursor := s.value_cursor + v.length
                     arg_cursor := s.arg_cursor + 1 }, s.arg_cursor) := by
  simp [task_args_add_val, h1, h2]

/-- Appending by reference appends exactly that argument to the decoded
argument sequence. -/
theorem spec_args_add_ref (s : task_spec) (id : object_id) :
    spec_args { s with args := s.args ++ [arg_desc.by_ref id]
                       arg_cursor := s.arg_cursor + 1 }
      = spec_args s ++ [task_arg.by_ref id] := by
  simp [spec_args, arg_value]

/-- Appending by value appends exactly that argument to the decoded
argument sequence, leaving every earlier argument's bytes intact. -/
theorem spec_args_add_val (s : task_spec) (v : byte_seq)
    (hval : s.value_data.length = s.value_cursor)
    (hdesc : ∀ d ∈ s.args, desc_ok s.value_data.length d) :
    spec_args { s with args := s.args ++ [arg_desc.by_val s.value_cursor v.length]
                       value_data := s.value_data ++ v
                       value_cursor := s.value_cursor + v.length
                       arg_cursor := s.arg_cursor + 1 }
      = spec_args s ++ [task_arg.by_val v] := by
  simp only [spec_args, List.map_append, List.map_cons, List.map_nil]
  have hold : s.args.map (arg_value (s.value_data ++ v))
      = s.args.map (arg_value s.value_data) :=
    List.map_congr_left fun d hd => arg_value_append s.value_data v d (hdesc d hd)
  have hnew : arg_value (s.value_data ++ v)
      (arg_desc.by_val s.value_cursor v.length) = task_arg.by_val v := by
    simp only [arg_value]
    rw [← hval, list_slice_append_exact]
  rw [hold, hnew]

/-- The populate phase succeeds on an in-budget argument sequence and
appends exactly those arguments, in order, leaving the header intact. -/
theorem build_args_sound (args : List task_arg) :
    ∀ s : task_spec, spec_wf s →
      s.arg_cursor + args.length ≤ s.num_args →
      s.value_cursor + total_val_size args ≤ s.args_value_size →
      ∃ s1, build_args s args = some s1 ∧ spec_wf s1 ∧
        same_header s1 s ∧
        s1.task_id = s.task_id ∧
        s1.returns = s.returns ∧
        s1.arg_cursor = s.arg_cursor + args.length ∧
        spec_args s1 = spec_args s ++ args := by
  induction args with
  | nil =>
    intro s hwf _ _
    exact ⟨s, by simp [build_args], hwf,
      ⟨rfl, rfl, rfl, rfl, rfl, rfl⟩, rfl, rfl, by simp, by simp⟩
  | cons a rest ih =>
    intro s hwf hargs hval
    obtain ⟨hlen, hvlen, hvbud, hdesc⟩ := hwf
    have hcur : s.arg_cursor < s.num_args := by
      simp at hargs; omega
    cases a with
    | by_ref id =>
      have hwf' : spec_wf { s with args := s.args ++ [arg_desc.by_ref id]
                                   arg_cursor := s.arg_cursor + 1 } := by
        refine ⟨by simp [hlen], by simp [hvlen], by simp [hvbud], ?_⟩
        intro d hd
        simp at hd
        cases hd with
        | inl hd => exact hdesc d hd
        | inr hd => subst hd; trivial
      obtain ⟨s1, hb, hwf1, hhd1, htid1, hret1, hcur1, hargs1⟩ :=
        ih { s with args := s.args ++ [arg_desc.by_ref id]
                    arg_cursor := s.arg_cursor + 1 }
          hwf' (by simp at hargs ⊢; omega) (by simp [total_val_size] at hval ⊢; omega)
      refine ⟨s1, ?_, hwf1, ?_, htid1, hret1, ?_, ?_⟩
      · simp only [build_args, add_arg, task_args_add_ref_some s id hcur]
        exact hb
      · exact ⟨hhd1.1, hhd1.2.1, hhd1.2.2.1, hhd1.2.2.2.1,
          hhd1.2.2.2.2.1, hhd1.2.2.2.2.2⟩
      · rw [hcur1]
        simp
        omega
      · rw [hargs1, spec_args_add_ref]
        simp
    | by_val v =>
      have hbud : s.value_cursor + v.length ≤ s.args_value_size := by
        simp [total_val_size] at hval; omega
      have hwf' : spec_wf
          { s with args := s.args ++ [arg_desc.by_val s.value_cursor v.length]
                   value_data := s.value_data ++ v
                   value_cursor := s.value_cursor + v.length
                   arg_cursor := s.arg_cursor + 1 } := by
        refine ⟨by simp [hlen], by simp [hvlen], by simp [hbud], ?_⟩
        intro d hd
        simp at hd
        cases hd with
        | inl hd =>
          exact desc_ok_mono (by simp) d (hdesc d hd)
        | inr hd => subst hd; simp [desc_ok, hvlen]
      obtain ⟨s1, hb, hwf1, hhd1, htid1, hret1, hcur1, hargs1⟩ :=
        ih { s with args := s.args ++ [arg_desc.by_val s.value_cursor v.length]
                    value_data := s.value_data ++ v
                    value_cursor := s.value_cursor + v.length
                    arg_cursor := s.arg_cursor + 1 }
          hwf' (by simp at hargs ⊢; omega) (by simp [total_val_size] at hval ⊢; omega)
      refine ⟨s1, ?_, hwf1, ?_, htid1, hret1, ?_, ?_⟩
      · simp only [build_args, add_arg, task_args_add_val_some s v hcur hbud]
        exact hb
      · exact ⟨hhd1.1, hhd1.2.1, hhd1.2.2.1, hhd1.2.2.2.1,
          hhd1.2.2.2.2.1, hhd1.2.2.2.2.2⟩
      · rw [hcur1]
        simp
        omega
      · rw [hargs1, spec_args_add_val s v hvlen hdesc]
        simp

/-- A freshly opened builder satisfies the builder invariant. -/
theorem spec_wf_start (parent : task_id) (c : Int) (f : function_id)
    (na nr avs : Nat) :
    spec_wf (start_construct_task_spec parent c f na nr avs) := by
  refine ⟨rfl, rfl, by simp [start_construct_task_spec], ?_⟩
  intro d hd
  simp [start_construct_task_spec] at hd

/-- A freshly opened builder encodes the empty argument sequence. -/
theorem spec_args_start (parent : task_id) (c : Int) (f : function_id)
    (na nr avs : Nat) :
    spec_args (start_construct_task_spec parent c f na nr avs) = [] := rfl

/-- Successful `finish_construct_task_spec`, explicitly: the task
identifier is the content hash and each return slot gets its derived
identifier. -/
theorem finish_construct_task_spec_some (s : task_spec)
    (h : s.arg_cursor = s.num_args) :
    finish_construct_task_spec s =
      some { s with
               task_id := compute_task_id s.parent_task_id s.parent_counter
                 s.func_id (spec_args s)
               returns := (List.range s.num_returns).map
                 (compute_return_id (compute_task_id s.parent_task_id
                   s.parent_counter s.func_id (spec_args s))) } := by
  simp [finish_construct_task_spec, h]

/-- A complete two-phase construction always succeeds and produces the
record the spec describes: the declared header, exactly the appended
arguments, the content-hash task identifier, and the derived return
identifiers. -/
theorem build_task_sound (p : task_id) (c : Int) (f : function_id)
    (args : List task_arg) (nr : Nat) :
    ∃ s, build_task p c f args nr = some s ∧ spec_wf s ∧
      s.parent_task_id = p ∧ s.parent_counter = c ∧ s.func_id = f ∧
      s.num_args = args.length ∧ s.num_returns = nr ∧
      spec_args s = args ∧
      s.task_id = compute_task_id p c f args ∧
      s.returns = (List.range nr).map
        (compute_return_id (compute_task_id p c f args)) := by
  obtain ⟨s1, hb, hwf1, hhd1, htid1, hret1, hcur1, hargs1⟩ :=
    build_args_sound args
      (start_construct_task_spec p c f args.length nr (total_val_size args))
      (spec_wf_start p c f args.length nr (total_val_size args))
      (by simp [start_construct_task_spec])
      (by simp [start_construct_task_spec])
  obtain ⟨hp1, hc1, hf1, hna1, hnr1, havs1⟩ := hhd1
  simp [start_construct_task_spec] at hp1 hc1 hf1 hna1 hnr1 havs1 hcur1
  rw [spec_args_start] at hargs1
  simp at hargs1
  have hfin : s1.arg_cursor = s1.num_args := by rw [hcur1, hna1]
  obtain ⟨hlen1, hvlen1, hbud1, hdesc1⟩ := hwf1
  have hT : compute_task_id s1.parent_task_id s1.parent_counter s1.func_id
      (spec_args s1) = compute_task_id p c f args := by
    rw [hp1, hc1, hf1, hargs1]
  refine ⟨{ s1 with
              task_id := compute_task_id p c f args
              returns := (List.range nr).map
                (compute_return_id (compute_task_id p c f args)) },
    ?_, ⟨hlen1, hvlen1, hbud1, hdesc1⟩, hp1, hc1, hf1, hna1, hnr1, hargs1,
    rfl, rfl⟩
  simp only [build_task, hb]
  rw [finish_construct_task_spec_some s1 hfin, hT, hnr1]

/-- After construction, each argument reads back through the accessor API
with the tag, identifier, bytes and length it was appended with. -/
theorem task_arg_accessors_of_spec_args (s : task_spec) (hwf : spec_wf s)
    (i : Nat) :
    (∀ id, (spec_args s)[i]? = some (task_arg.by_ref id) →
      task_arg_type s i = some ARG_BY_REF ∧ task_arg_id s i = some id) ∧
    (∀ v, (spec_args s)[i]? = some (task_arg.by_val v) →
      task_arg_type s i = some ARG_BY_VAL ∧ task_arg_length s i = some v.length ∧
      task_arg_val s i = some v) := by
  obtain ⟨hlen, hvlen, hbud, hdesc⟩ := hwf
  constructor
  · intro id h
    simp only [spec_args, List.getElem?_map] at h
    rw [Option.map_eq_some'] at h
    obtain ⟨d, hd, hdv⟩ := h
    cases d with
    | by_ref id1 =>
      simp [arg_value] at hdv
      subst hdv
      simp [task_arg_type, task_arg_id, hd]
    | by_val off len => simp [arg_value] at hdv
  · intro v h
    simp only [spec_args, List.getElem?_map] at h
    rw [Option.map_eq_some'] at h
    obtain ⟨d, hd, hdv⟩ := h
    cases d with
    | by_ref id1 => simp [arg_value] at hdv
    | by_val off len =>
      simp [arg_value] at hdv
      have hmem : arg_desc.by_val off len ∈ s.args := by
        exact List.getElem?_mem hd
      have hok : off + len ≤ s.value_data.length := by
        have := hdesc _ hmem
        simpa [desc_ok] using this
      have hvl : v.length = len := by
        rw [← hdv]
        exact list_slice_length s.value_data off len hok
      refine ⟨by simp [task_arg_type, hd], ?_, by simp [task_arg_val, hd, hdv]⟩
      simp [task_arg_length, hd, hvl]

/-- The per-argument hash chunks determine the argument sequence: no two
distinct sequences (tags, identifiers, bytes, or order) share a hash
input. -/
theorem arg_hash_chunks_injective :
    ∀ a1 a2 : List task_arg,
      a1.flatMap arg_hash_chunks = a2.flatMap arg_hash_chunks → a1 = a2 := by
  intro a1
  induction a1 with
  | nil =>
    intro a2 h
    cases a2 with
    | nil => rfl
    | cons b t => cases b <;> simp [arg_hash_chunks] at h
  | cons a t ih =>
    intro a2 h
    cases a2 with
    | nil => cases a <;> simp [arg_hash_chunks] at h
    | cons b t2 =>
      cases a with
      | by_ref id1 =>
        cases b with
        | by_ref id2 =>
          simp [arg_hash_chunks] at h
          obtain ⟨hid, ht⟩ := h
          rw [unique_id_eq_of_bytes hid, ih t2 ht]
        | by_val v2 =>
          simp [arg_hash_chunks, ARG_BY_REF, ARG_BY_VAL] at h
      | by_val v1 =>
        cases b with
        | by_ref id2 =>
          simp [arg_hash_chunks, ARG_BY_REF, ARG_BY_VAL] at h
        | by_val v2 =>
          simp [arg_hash_chunks] at h
          obtain ⟨hv, ht⟩ := h
          rw [hv, ih t2 ht]

/-- The task identifier determines parent, counter, function and the full
argument sequence: distinct inputs give distinct identifiers. -/
theorem compute_task_id_injective
    {p1 p2 : task_id} {c1 c2 : Int} {f1 f2 : function_id}
    {a1 a2 : List task_arg}
    (h : compute_task_id p1 c1 f1 a1 = compute_task_id p2 c2 f2 a2) :
    p1 = p2 ∧ c1 = c2 ∧ f1 = f2 ∧ a1 = a2 := by
  unfold compute_task_id at h
  have hc := id_hash_injective h
  simp only [List.cons_append, List.nil_append, List.cons.injEq] at hc
  obtain ⟨hp, hcc, hf, ha⟩ := hc
  exact ⟨unique_id_eq_of_bytes hp, int_bytes_injective hcc,
    unique_id_eq_of_bytes hf, arg_hash_chunks_injective _ _ ha⟩

/-- The derived return identifier determines the task identifier and the
return index. -/
theorem compute_return_id_injective {t1 t2 : task_id} {i j : Nat}
    (h : compute_return_id t1 i = compute_return_id t2 j) :
    t1 = t2 ∧ i = j := by
  unfold compute_return_id at h
  have hc := id_hash_injective h
  simp at hc
  exact ⟨unique_id_eq_of_bytes hc.1, hc.2⟩

/-- Identifier reconstruction is the identity. -/
theorem map_mk_bytes (l : List unique_id) :
    l.map (fun u => (⟨u.bytes⟩ : unique_id)) = l := by
  induction l with
  | nil => rfl
  | cons a t ih => simp only [List.map_cons, ih]

/-- Parsing the descriptor table recovers exactly the encoded
descriptors and leaves the trailing chunks. -/
theorem parse_descs_flatMap (ds : List arg_desc) (rest : List byte_seq) :
    parse_descs ds.length (ds.flatMap desc_chunks ++ rest) = some (ds, rest) := by
  induction ds with
  | nil => simp [parse_descs]
  | cons d t ih =>
    cases d with
    | by_ref id =>
      simp only [List.flatMap_cons, desc_chunks, List.length_cons,
        List.append_assoc, List.cons_append, List.nil_append, ARG_BY_REF]
      simp [parse_descs, ih]
    | by_val off len =>
      simp only [List.flatMap_cons, desc_chunks, List.length_cons,
        List.append_assoc, List.cons_append, List.nil_append, ARG_BY_VAL]
      simp [parse_descs, ih]

/-- Round trip of the relocatable byte range: a verbatim copy of the
encoded bytes parses back to the identical record (§6), for any record
whose descriptor table matches its fill cursor. -/
theorem decode_encode_task_spec (s : task_spec)
    (hlen : s.args.length = s.arg_cursor) :
    decode_task_spec (encode_task_spec s) = some s := by
  unfold decode_task_spec encode_task_spec
  rw [parse_chunks_pack]
  unfold spec_chunks
  simp only [List.append_assoc, List.cons_append, List.nil_append]
  simp only [decode_chunks]
  simp only [int_of_bytes_int_bytes]
  rw [← hlen]
  simp only [parse_descs_flatMap]
  simp only [List.map_map]
  have hret : s.returns.map ((fun b => (⟨b⟩ : unique_id)) ∘ unique_id.bytes)
      = s.returns := map_mk_bytes s.returns
  rw [hret, hlen]

/-- C1: building two task specifications with equal parent task
identifier, equal parent counter, equal function identifier and equal
ordered argument sequences, then finishing each, yields identical task
identifiers and identical per-index return object identifiers across the
two independent builds. -/
theorem task_spec_determinism (p1 p2 : task_id) (c1 c2 : Int)
    (f1 f2 : function_id) (args1 args2 : List task_arg) (nr : Nat)
    (s1 s2 : task_spec)
    (hp : p1 = p2) (hc : c1 = c2) (hf : f1 = f2) (ha : args1 = args2)
    (h1 : build_task p1 c1 f1 args1 nr = some s1)
    (h2 : build_task p2 c2 f2 args2 nr = some s2) :
    task_task_id s1 = task_task_id s2 ∧
    ∀ i, i < nr → task_return s1 i = task_return s2 i := by
  subst hp; subst hc; subst hf; subst ha
  rw [h1] at h2
  cases Option.some.inj h2
  exact ⟨rfl, fun i _ => rfl⟩

/-- C1 witness: the §8 scenario build, run twice, gives the same task
identifier and the same first return identifier. -/
theorem task_spec_determinism_witness :
    task_task_id demo_spec = task_task_id demo_spec ∧
    task_return demo_spec 0 = task_return demo_spec 0 := by
  have h := task_spec_determinism demo_parent demo_parent 0 0 demo_fid
    demo_fid demo_args demo_args 3 demo_spec demo_spec rfl rfl rfl rfl rfl rfl
  exact ⟨h.1, h.2 0 (by decide)⟩

/-- C3: two finished specifications that differ in parent identifier,
parent counter, function identifier, or anywhere in the argument sequence
(tag, identifier, bytes, or order) have distinct task identifiers:
`task_ids_equal` returns false. -/
theorem task_id_distinctness (p1 p2 : task_id) (c1 c2 : Int)
    (f1 f2 : function_id) (args1 args2 : List task_arg) (nr1 nr2 : Nat)
    (s1 s2 : task_spec)
    (h1 : build_task p1 c1 f1 args1 nr1 = some s1)
    (h2 : build_task p2 c2 f2 args2 nr2 = some s2)
    (hdiff : ¬(p1 = p2 ∧ c1 = c2 ∧ f1 = f2 ∧ args1 = args2)) :
    task_ids_equal (task_task_id s1) (task_task_id s2) = false := by
  obtain ⟨t1, hb1, _, _, _, _, _, _, _, hti1, _⟩ :=
    build_task_sound p1 c1 f1 args1 nr1
  obtain ⟨t2, hb2, _, _, _, _, _, _, _, hti2, _⟩ :=
    build_task_sound p2 c2 f2 args2 nr2
  rw [hb1] at h1
  rw [hb2] at h2
  cases Option.some.inj h1
  cases Option.some.inj h2
  unfold task_task_id task_ids_equal
  rw [hti1, hti2, decide_eq_false_iff_not]
  intro hbytes
  exact hdiff (compute_task_id_injective (unique_id_eq_of_bytes hbytes))

/-- C3 witness: swapping the order of the two scenario arguments changes
the task identifier. -/
theorem task_id_distinctness_witness :
    task_ids_equal (task_task_id demo_spec)
      (task_task_id demo_spec_swapped) = false :=
  task_id_distinctness demo_parent demo_parent 0 0 demo_fid demo_fid
    demo_args demo_args_swapped 3 3 demo_spec demo_spec_swapped rfl rfl
    (by decide)

/-- C4: in a finished specification every return identifier at index
`i < num_returns` is the deterministic hash of the task identifier and
`i`, and return identifiers at distinct indices are pairwise distinct. -/
theorem task_return_derivation (p : task_id) (c : Int) (f : function_id)
    (args : List task_arg) (nr : Nat) (s : task_spec)
    (hb : build_task p c f args nr = some s) :
    (∀ i, i < nr →
      task_return s i = some (compute_return_id (task_task_id s) i)) ∧
    (∀ i j, i < nr → j < nr → i ≠ j → task_return s i ≠ task_return s j) := by
  obtain ⟨t, hb0, _, _, _, _, _, _, _, htid, hret⟩ :=
    build_task_sound p c f args nr
  rw [hb0] at hb
  cases Option.some.inj hb
  have key : ∀ i, i < nr →
      task_return s i = some (compute_return_id (task_task_id s) i) := by
    intro i hi
    unfold task_return
    rw [hret]
    rw [List.getElem?_map]
    simp [List.getElem?_range, hi, task_task_id, htid]
  refine ⟨key, ?_⟩
  intro i j hi hj hne heq
  rw [key i hi, key j hj] at heq
  exact hne (compute_return_id_injective (Option.some.inj heq)).2

/-- C4 witness: the scenario build declares three returns; the first
return identifier is the hash of (task identifier, 0) and the three are
pairwise distinct. -/
theorem task_return_derivation_witness :
    task_return demo_spec 0
      = some (compute_return_id (task_task_id demo_spec) 0) ∧
    task_return demo_spec 0 ≠ task_return demo_spec 1 ∧
    task_return demo_spec 0 ≠ task_return demo_spec 2 ∧
    task_return demo_spec 1 ≠ task_return demo_spec 2 := by
  have h := task_return_derivation demo_parent 0 demo_fid demo_args 3
    demo_spec rfl
  exact ⟨h.1 0 (by decide), h.2 0 1 (by decide) (by decide) (by decide),
    h.2 0 2 (by decide) (by decide) (by decide),
    h.2 1 2 (by decide) (by decide) (by decide)⟩

/-- C5: appending past the declared argument count, copying more by-value
bytes than the declared budget allows, or finishing before every declared
argument is filled, aborts (returns none) instead of truncating or
writing past the filled region. -/
theorem builder_fail_fast (s : task_spec) (obj : object_id)
    (data : byte_seq) :
    (s.num_args ≤ s.arg_cursor →
      task_args_add_ref s obj = none ∧ task_args_add_val s data = none) ∧
    (s.args_value_size < s.value_cursor + data.length →
      task_args_add_val s data = none) ∧
    (s.arg_cursor ≠ s.num_args → finish_construct_task_spec s = none) := by
  refine ⟨fun h => ⟨?_, ?_⟩, fun h => ?_, fun h => ?_⟩
  · unfold task_args_add_ref
    rw [if_neg (by omega)]
  · unfold task_args_add_val
    rw [if_neg (by omega)]
  · unfold task_args_add_val
    rw [if_neg (by omega)]
  · unfold finish_construct_task_spec
    rw [if_neg h]

/-- C5 witness: on a record with no free slot and an exhausted value
budget, both appends and a premature finish abort. -/
theorem builder_fail_fast_witness :
    task_args_add_ref demo_bad_spec demo_obj = none ∧
    task_args_add_val demo_bad_spec [7] = none ∧
    finish_construct_task_spec demo_bad_spec = none := by
  have h := builder_fail_fast demo_bad_spec demo_obj [7]
  exact ⟨(h.1 (by decide)).1, h.2.1 (by decide), h.2.2 (by decide)⟩

/-- C2: every argument of a finished specification reads back through the
accessor API with exactly the tag, reference identifier, value bytes and
length it was appended with — both at the original record and at the
record obtained by parsing a verbatim copy of its encoded byte range. -/
theorem task_args_roundtrip (p : task_id) (c : Int) (f : function_id)
    (args : List task_arg) (nr : Nat) (s s2 : task_spec)
    (hb : build_task p c f args nr = some s)
    (hcopy : decode_task_spec (encode_task_spec s) = some s2) :
    s2 = s ∧
    ∀ i,
      (∀ id, args[i]? = some (task_arg.by_ref id) →
        task_arg_type s i = some ARG_BY_REF ∧ task_arg_id s i = some id ∧
        task_arg_type s2 i = some ARG_BY_REF ∧ task_arg_id s2 i = some id) ∧
      (∀ v, args[i]? = some (task_arg.by_val v) →
        task_arg_type s i = some ARG_BY_VAL ∧
        task_arg_length s i = some v.length ∧ task_arg_val s i = some v ∧
        task_arg_type s2 i = some ARG_BY_VAL ∧
        task_arg_length s2 i = some v.length ∧ task_arg_val s2 i = some v) := by
  obtain ⟨t, hb0, hwf, _, _, _, _, _, hargs, _, _⟩ :=
    build_task_sound p c f args nr
  rw [hb0] at hb
  cases Option.some.inj hb
  rw [decode_encode_task_spec s hwf.1] at hcopy
  cases Option.some.inj hcopy
  refine ⟨rfl, fun i => ⟨fun id h => ?_, fun v h => ?_⟩⟩
  · have hr := (task_arg_accessors_of_spec_args s hwf i).1 id
      (by rw [hargs]; exact h)
    exact ⟨hr.1, hr.2, hr.1, hr.2⟩
  · have hr := (task_arg_accessors_of_spec_args s hwf i).2 v
      (by rw [hargs]; exact h)
    exact ⟨hr.1, hr.2.1, hr.2.2, hr.1, hr.2.1, hr.2.2⟩

/-- C2 witness: in the §8 scenario build, argument 0 reads back as the
appended reference and argument 1 as the appended two bytes, at the
original record and at the decoded verbatim copy alike. -/
theorem task_args_roundtrip_witness :
    task_arg_type demo_spec 0 = some ARG_BY_REF ∧
    task_arg_id demo_spec 0 = some demo_obj ∧
    task_arg_type demo_spec 1 = some ARG_BY_VAL ∧
    task_arg_length demo_spec 1 = some 2 ∧
    task_arg_val demo_spec 1 = some [1, 2] := by
  have h := task_args_roundtrip demo_parent 0 demo_fid demo_args 3
    demo_spec demo_spec rfl rfl
  have h0 := (h.2 0).1 demo_obj rfl
  have h1 := (h.2 1).2 [1, 2] rfl
  exact ⟨h0.1, h0.2.1, h1.1, h1.2.1, h1.2.2.1⟩

/-- C6: after `finish_construct_task_spec` returns, no sequence of read
accessor calls modifies the specification: the record and its entire
encoded byte range are unchanged. -/
theorem accessors_frame (s0 s : task_spec)
    (_hfin : finish_construct_task_spec s0 = some s)
    (ops : List accessor_op) :
    run_accessors s ops = s ∧
    encode_task_spec (run_accessors s ops) = encode_task_spec s := by
  have hrun : ∀ (t : task_spec) (op : accessor_op),
      (run_accessor t op).1 = t := by
    intro t op; cases op <;> rfl
  have key : ∀ (l : List accessor_op) (t : task_spec),
      run_accessors t l = t := by
    intro l
    induction l with
    | nil => intro t; rfl
    | cons op rest ih =>
      intro t
      unfold run_accessors at ih ⊢
      rw [List.foldl_cons, hrun t op]
      exact ih t
  exact ⟨key ops s, by rw [key ops s]⟩

/-- C6 witness: a concrete accessor sequence run against the finished
scenario record leaves it and its encoding untouched. -/
theorem accessors_frame_witness :
    run_accessors demo_spec [accessor_op.size, accessor_op.get_task_id,
      accessor_op.arg_type 0, accessor_op.arg_id 0, accessor_op.arg_val 1,
      accessor_op.arg_length 1, accessor_op.ret 0, accessor_op.function,
      accessor_op.get_num_args, accessor_op.get_num_returns,
      accessor_op.print] = demo_spec ∧
    encode_task_spec (run_accessors demo_spec [accessor_op.size,
      accessor_op.get_task_id, accessor_op.arg_type 0, accessor_op.arg_id 0,
      accessor_op.arg_val 1, accessor_op.arg_length 1, accessor_op.ret 0,
      accessor_op.function, accessor_op.get_num_args,
      accessor_op.get_num_returns, accessor_op.print])
      = encode_task_spec demo_spec :=
  accessors_frame demo_prespec demo_spec rfl
    [accessor_op.size, accessor_op.get_task_id, accessor_op.arg_type 0,
     accessor_op.arg_id 0, accessor_op.arg_val 1, accessor_op.arg_length 1,
     accessor_op.ret 0, accessor_op.function, accessor_op.get_num_args,
     accessor_op.get_num_returns, accessor_op.print]

/-- C7 counterexample: the claim that an append at position k returns
k + 1 fails at the very first append of a fresh builder — the call stores
the argument at slot 0 but returns 0 (the number of arguments set before
this one, per the header contract), not 1. -/
theorem add_arg_return_count_cex :
    (task_args_add_ref (start_construct_task_spec demo_parent 0 demo_fid 1 1 0)
        demo_obj).map (fun r => r.2) = some 0 ∧
    (task_args_add_ref (start_construct_task_spec demo_parent 0 demo_fid 1 1 0)
        demo_obj).map (fun r => r.2) ≠ some (0 + 1) := by
  exact ⟨rfl, by decide⟩

/-- C7 (amended): with k arguments already appended, a successful
`task_args_add_ref` or `task_args_add_val` stores the new argument in
slot k, advances the cursor to k + 1, and returns k — the count of
arguments that had been set before this call. -/
theorem add_arg_return_count (s : task_spec) (obj : object_id)
    (data : byte_seq) (s1 s2 : task_spec) (r1 r2 : Nat)
    (hwf : spec_wf s)
    (h1 : task_args_add_ref s obj = some (s1, r1))
    (h2 : task_args_add_val s data = some (s2, r2)) :
    r1 = s.arg_cursor ∧ r2 = s.arg_cursor ∧
    (spec_args s1)[s.arg_cursor]? = some (task_arg.by_ref obj) ∧
    (spec_args s2)[s.arg_cursor]? = some (task_arg.by_val data) ∧
    s1.arg_cursor = s.arg_cursor + 1 ∧ s2.arg_cursor = s.arg_cursor + 1 := by
  by_cases hc : s.arg_cursor < s.num_args
  case neg => simp [task_args_add_ref, hc] at h1
  by_cases hv : s.value_cursor + data.length ≤ s.args_value_size
  case neg => simp [task_args_add_val, hc, hv] at h2
  rw [task_args_add_ref_some s obj hc] at h1
  rw [task_args_add_val_some s data hc hv] at h2
  simp only [Option.some.injEq, Prod.mk.injEq] at h1 h2
  obtain ⟨hs1, hr1⟩ := h1
  obtain ⟨hs2, hr2⟩ := h2
  subst hs1; subst hr1; subst hs2; subst hr2
  have hlen : (spec_args s).length = s.arg_cursor := by
    simp [spec_args, hwf.1]
  refine ⟨rfl, rfl, ?_, ?_, rfl, rfl⟩
  · rw [spec_args_add_ref, ← hlen]
    exact List.getElem?_concat_length _ _
  · rw [spec_args_add_val s data hwf.2.1 hwf.2.2.2, ← hlen]
    exact List.getElem?_concat_length _ _

/-- C7 witness: on the fresh two-slot builder, appending by reference and
appending by value each store at slot 0, return 0, and advance the cursor
to 1. -/
theorem add_arg_return_count_witness :
    demo_after_ref_count = demo_open.arg_cursor ∧
    demo_after_val_count = demo_open.arg_cursor ∧
    (spec_args demo_after_ref)[demo_open.arg_cursor]?
      = some (task_arg.by_ref demo_obj) ∧
    (spec_args demo_after_val)[demo_open.arg_cursor]?
      = some (task_arg.by_val [1, 2]) ∧
    demo_after_ref.arg_cursor = demo_open.arg_cursor + 1 ∧
    demo_after_val.arg_cursor = demo_open.arg_cursor + 1 :=
  add_arg_return_count demo_open demo_obj [1, 2] demo_after_ref
    demo_after_val demo_after_ref_count demo_after_val_count (by decide)
    rfl rfl

/-- C8: appending a zero-length by-value argument is legal: it advances
the fill cursor by one, consumes none of the value budget, and reads back
as a by-value argument of length 0, whose tag differs from a by-reference
argument's. -/
theorem zero_length_val_arg (s : task_spec) (hwf : spec_wf s)
    (hroom : s.arg_cursor < s.num_args) :
    ∃ s1, task_args_add_val s [] = some (s1, s.arg_cursor) ∧
      s1.arg_cursor = s.arg_cursor + 1 ∧
      s1.value_cursor = s.value_cursor ∧
      task_arg_type s1 s.arg_cursor = some ARG_BY_VAL ∧
      task_arg_length s1 s.arg_cursor = some 0 ∧
      ARG_BY_VAL ≠ ARG_BY_REF := by
  have hbud : s.value_cursor + ([] : byte_seq).length ≤ s.args_value_size := by
    simpa using hwf.2.2.1
  rw [task_args_add_val_some s [] hroom hbud]
  have hidx : (s.args ++ [arg_desc.by_val s.value_cursor 0])[s.arg_cursor]?
      = some (arg_desc.by_val s.value_cursor 0) := by
    rw [← hwf.1]
    exact List.getElem?_concat_length _ _
  refine ⟨_, rfl, by simp, by simp, ?_, ?_, by decide⟩
  · simp [task_arg_type, hidx]
  · simp [task_arg_length, hidx]

/-- C8 witness: on the fresh two-slot builder, the zero-length by-value
append succeeds, advances the cursor, keeps the value cursor at 0, and
reads back as a length-0 by-value argument. -/
theorem zero_length_val_arg_witness :
    task_args_add_val demo_open []
      = some (demo_after_zero, demo_open.arg_cursor) ∧
    demo_after_zero.arg_cursor = demo_open.arg_cursor + 1 ∧
    demo_after_zero.value_cursor = demo_open.value_cursor ∧
    task_arg_type demo_after_zero demo_open.arg_cursor = some ARG_BY_VAL ∧
    task_arg_length demo_after_zero demo_open.arg_cursor = some 0 ∧
    ARG_BY_VAL ≠ ARG_BY_REF := by
  obtain ⟨s1, h1, h2, h3, h4, h5, h6⟩ :=
    zero_length_val_arg demo_open (by decide) (by decide)
  have hs1 : s1 = demo_after_zero := by
    have heq : (some (s1, demo_open.arg_cursor) :
        Option (task_spec × Nat)) = some (demo_after_zero, demo_open.arg_cursor) := by
      rw [← h1]; rfl
    exact congrArg Prod.fst (Option.some.inj heq)
  subst hs1
  exact ⟨h1, h2, h3, h4, h5, h6⟩

/-- C9: two task instances independently constructed from the same
finished specification are independent: writing a new state and node
through one instance leaves the other instance's state, node, instance
identifier and embedded specification unchanged, and leaves even the
writer's embedded specification unchanged. -/
theorem instance_independence (ts : task_spec) (iid1 iid2 : task_iid)
    (st1 st2 v : Int) (n1 n2 w : node_id) :
    task_instance_state (make_task_instance iid2 ts st2 n2) = st2 ∧
    task_instance_node (make_task_instance iid2 ts st2 n2) = n2 ∧
    task_instance_id (make_task_instance iid2 ts st2 n2) = iid2 ∧
    task_instance_task_spec (make_task_instance iid2 ts st2 n2) = ts ∧
    task_task_id (task_instance_task_spec (make_task_instance iid2 ts st2 n2))
      = task_task_id ts ∧
    task_instance_task_spec (set_task_instance_node
      (set_task_instance_state (make_task_instance iid1 ts st1 n1) v) w) = ts ∧
    task_instance_id (set_task_instance_node
      (set_task_instance_state (make_task_instance iid1 ts st1 n1) v) w)
      = iid1 ∧
    task_instance_state (set_task_instance_node
      (set_task_instance_state (make_task_instance iid1 ts st1 n1) v) w) = v ∧
    task_instance_node (set_task_instance_node
      (set_task_instance_state (make_task_instance iid1 ts st1 n1) v) w) = w :=
  ⟨rfl, rfl, rfl, rfl, rfl, rfl, rfl, rfl, rfl⟩

/-- C10: the four scheduling-state constants 1, 2, 4, 8 are nonzero,
single-bit, pairwise-disjoint values, and a bitwise-and of a single state
against any subset mask is nonzero exactly when the state belongs to the
subset. -/
theorem scheduling_state_bits :
    (∀ s ∈ scheduling_states, s ≠ 0 ∧ s.land (s - 1) = 0) ∧
    (∀ s ∈ scheduling_states, ∀ t ∈ scheduling_states,
      s ≠ t → s.land t = 0) ∧
    (∀ s ∈ scheduling_states, ∀ w x r d : Bool,
      (s.land (status_mask w x r d) ≠ 0 ↔
        ((s = TASK_STATUS_WAITING ∧ w = true) ∨
         (s = TASK_STATUS_SCHEDULED ∧ x = true) ∨
         (s = TASK_STATUS_RUNNING ∧ r = true) ∨
         (s = TASK_STATUS_DONE ∧ d = true)))) := by
  decide
